import Mathlib

/-!
Verification of the task-hierarchy engine of `edwh_odoo_plugin`
(`task_manager.py`, plus the filter-data collection of
`web_search_server.py`) against its design specification.

The remote store is modelled as flat task/project tables; every RPC call
the engine issues (`search_records`, `write`) is modelled explicitly, and
mutating operations return the list of write calls they issued so that
"no write before a precondition failure" is a statement about the result.
-/

namespace EdwhOdoo

/-- A task record of the remote `project.task` table: integer primary key,
optional `parent_id` and `project_id` relations, and the display name. -/
structure Task where
  id : Nat
  name : String
  parent_id : Option Nat
  project_id : Option Nat
deriving Repr, DecidableEq

/-- A project record of the remote `project.project` table. -/
structure Project where
  id : Nat
  name : String
deriving Repr, DecidableEq

/-- The remote store: the flat task and project tables. -/
structure Store where
  tasks : List Task
  projects : List Project
deriving Repr, DecidableEq

/-- `self.tasks.search_records([('id', '=', i)])`: every task whose id equals
`i`, in table order. -/
def storeSearchTask (s : Store) (i : Nat) : List Task :=
  s.tasks.filter (fun t => t.id == i)

/-- `self.projects.search_records([('id', '=', i)])`. -/
def storeSearchProject (s : Store) (i : Nat) : List Project :=
  s.projects.filter (fun p => p.id == i)

/-- The `vals` dict passed to `self.tasks.write`.  `parent_id` is the value
written (`none` models writing `False`, i.e. clearing the parent); the
`parent_id` key is present in every write this code issues.
`project_id = some p` models the key being present with value `p`; `none`
models the key being absent from the dict. -/
structure Vals where
  parent_id : Option Nat
  project_id : Option Nat
deriving Repr, DecidableEq

/-- Applying a `vals` dict to one task record. -/
def applyVals (v : Vals) (t : Task) : Task :=
  { t with
    parent_id := v.parent_id
    project_id :=
      match v.project_id with
      | none => t.project_id
      | some p => some p }

/-- Effect of a successful `self.tasks.write([i], vals)` on the remote store:
every record whose id equals `i` is updated. -/
def writeStore (s : Store) (i : Nat) (v : Vals) : Store :=
  { s with tasks := s.tasks.map (fun t => if t.id == i then applyVals v t else t) }

/-- The RPC adapter as the engine sees it: each call may raise
(`Except.error` carries `str(e)`), and a write may also report failure by
returning `False`. -/
structure Adapter where
  searchTask : Nat → Except String (List Task)
  searchProject : Nat → Except String (List Project)
  writeTask : Nat → Vals → Except String Bool

/-- The non-failing adapter backed by a snapshot of a concrete store. -/
def Store.adapter (s : Store) : Adapter where
  searchTask i := .ok (storeSearchTask s i)
  searchProject i := .ok (storeSearchProject s i)
  writeTask _ _ := .ok true

/-- The ids column of the task table. -/
def taskIds (s : Store) : List Nat := s.tasks.map Task.id

/-- One more than the number of distinct task ids: enough fuel for any
visited-set-guarded upward walk over the store (at most one step per
distinct task id, plus the final loop test). -/
def walkFuel (s : Store) : Nat := (taskIds s).dedup.length + 1

/-- The upward walk of `TaskManager._is_descendant`: one constructor step per
iteration of the `while current_id and current_id not in visited` loop.
`none` means the fuel ran out while the Python loop would still be running.
An adapter error is caught inside the walk and yields `False`, mirroring
`except Exception: return False`.  A `parent_id` of `0` is falsy in Python
and is treated as "no parent", exactly like the `while current_id` guard
treats a current id of `0`. -/
def descWalk (a : Adapter) (ancestor : Nat) : Nat → List Nat → Nat → Option Bool
  | _, _, 0 => none
  | current, visited, fuel + 1 =>
    if current == 0 || visited.contains current then some false
    else
      match a.searchTask current with
      | .error _ => some false
      | .ok [] => some false
      | .ok (t :: _) =>
        match t.parent_id with
        | none => some false
        | some p =>
          if p == 0 then some false
          else if p == ancestor then some true
          else descWalk a ancestor p (current :: visited) fuel

/-- `TaskManager._would_create_circular_dependency`: a self-move is a cycle,
otherwise ask whether `new_parent_id` is a descendant of `subtask_id`. -/
def wouldCreateCircularDependencyA (a : Adapter) (fuel subtask_id new_parent_id : Nat) : Bool :=
  subtask_id == new_parent_id ||
    (descWalk a subtask_id new_parent_id [] fuel).getD false

/-- The result dict of `TaskManager.move_subtask`. -/
structure MoveResult where
  success : Bool
  error : Option String
  subtask_name : Option String
  new_parent_name : Option String
  project_name : Option String
deriving Repr, DecidableEq

/-- A `{'success': False, 'error': e}` move result. -/
def moveErr (e : String) : MoveResult :=
  { success := false, error := some e, subtask_name := none
    new_parent_name := none, project_name := none }

/-- The `if target_project_id:` validation block of `move_subtask`: skipped
when the argument is absent or `0` (falsy); otherwise the project must
resolve, and its name is kept for the confirmation message.  The `error`
side carries the result dict `move_subtask` returns on this failure. -/
def projectValidate (a : Adapter) (target_project_id : Option Nat) :
    Except MoveResult (Option String) :=
  match target_project_id with
  | none => .ok none
  | some tp =>
    if tp == 0 then .ok none
    else
      match a.searchProject tp with
      | .error e => .error (moveErr e)
      | .ok [] => .error (moveErr s!"Project with ID {tp} not found")
      | .ok (p :: _) => .ok (some p.name)

/-- `TaskManager.move_subtask` over an abstract adapter, returning the result
dict together with the list of `write` calls issued (at most one).  The
surrounding `try`/`except` surfaces an adapter error `e` as
`{'success': False, 'error': str(e)}`. -/
def moveSubtaskA (a : Adapter) (fuel : Nat) (subtask_id new_parent_id : Nat)
    (target_project_id : Option Nat) : MoveResult × List (Nat × Vals) :=
  match a.searchTask subtask_id with
  | .error e => (moveErr e, [])
  | .ok [] => (moveErr s!"Subtask with ID {subtask_id} not found", [])
  | .ok (subtask :: _) =>
    match a.searchTask new_parent_id with
    | .error e => (moveErr e, [])
    | .ok [] => (moveErr s!"Parent task with ID {new_parent_id} not found", [])
    | .ok (new_parent :: _) =>
      match projectValidate a target_project_id with
      | .error r => (r, [])
      | .ok project_name =>
        if wouldCreateCircularDependencyA a fuel subtask_id new_parent_id then
          (moveErr "Cannot move task: would create circular dependency", [])
        else
          let vals : Vals := { parent_id := some new_parent_id, project_id := target_project_id }
          match a.writeTask subtask_id vals with
          | .error e => (moveErr e, [(subtask_id, vals)])
          | .ok true =>
            ({ success := true, error := none, subtask_name := some subtask.name
               new_parent_name := some new_parent.name, project_name := project_name },
             [(subtask_id, vals)])
          | .ok false => (moveErr "Write operation failed", [(subtask_id, vals)])

/-- `move_subtask` against a concrete store, with enough walk fuel for the
visited-set-guarded descendant check to finish. -/
def move_subtask (s : Store) (subtask_id new_parent_id : Nat)
    (target_project_id : Option Nat) : MoveResult × List (Nat × Vals) :=
  moveSubtaskA s.adapter (walkFuel s) subtask_id new_parent_id target_project_id

/-- Applying a list of issued write calls to the store, in order. -/
def applyWriteOps (s : Store) (ops : List (Nat × Vals)) : Store :=
  ops.foldl (fun st op => writeStore st op.1 op.2) s

/-- One sequential `move_subtask(subtask, parent, project?)` call: the store
after the writes it issued (unchanged when the call failed). -/
def moveStep (s : Store) (m : Nat × Nat × Option Nat) : Store :=
  applyWriteOps s (move_subtask s m.1 m.2.1 m.2.2).2

/-- A whole sequence of sequential `move_subtask` calls. -/
def applyMoves (s : Store) (ms : List (Nat × Nat × Option Nat)) : Store :=
  ms.foldl moveStep s

/-- The result dict of `TaskManager.promote_task`. -/
structure PromoteResult where
  success : Bool
  error : Option String
  task_name : Option String
  former_parent_name : Option String
deriving Repr, DecidableEq

/-- A `{'success': False, 'error': e}` promote result. -/
def promoteErr (e : String) : PromoteResult :=
  { success := false, error := some e, task_name := none, former_parent_name := none }

/-- `TaskManager.promote_task` over an abstract adapter, with the list of
`write` calls issued.  The read of `task.parent_id.name` through the lazy
record proxy is one more remote lookup; a missing parent record yields
`'Unknown'`.  A task whose `parent_id` is absent or falsy (`0`) is already
a main task. -/
def promoteA (a : Adapter) (task_id : Nat) : PromoteResult × List (Nat × Vals) :=
  match a.searchTask task_id with
  | .error e => (promoteErr e, [])
  | .ok [] => (promoteErr s!"Task with ID {task_id} not found", [])
  | .ok (task :: _) =>
    match task.parent_id with
    | none => (promoteErr "Task is already a main task (no parent)", [])
    | some p =>
      if p == 0 then (promoteErr "Task is already a main task (no parent)", [])
      else
        match a.searchTask p with
        | .error e => (promoteErr e, [])
        | .ok parents =>
          let former :=
            match parents with
            | [] => "Unknown"
            | pt :: _ => pt.name
          let vals : Vals := { parent_id := none, project_id := none }
          match a.writeTask task_id vals with
          | .error e => (promoteErr e, [(task_id, vals)])
          | .ok true =>
            ({ success := true, error := none, task_name := some task.name
               former_parent_name := some former }, [(task_id, vals)])
          | .ok false => (promoteErr "Write operation failed", [(task_id, vals)])

/-- `promote_task` against a concrete store. -/
def promote_task (s : Store) (task_id : Nat) : PromoteResult × List (Nat × Vals) :=
  promoteA s.adapter task_id

/-- The aggregate result dict of `TaskManager.move_multiple_subtasks`. -/
structure BatchResult where
  success : Bool
  moved_count : Nat
  failed_count : Nat
  errors : List String
  new_parent_name : String
deriving Repr, DecidableEq

/-- `move_multiple_subtasks` either fails its up-front validation with a bare
error dict, or returns the aggregate counts. -/
inductive BatchOutcome where
  | failed (error : String)
  | done (r : BatchResult)
deriving Repr, DecidableEq

/-- The per-id loop of `move_multiple_subtasks` against a concrete store.
The circular-dependency check runs first, then the existence check, then
the write; each successful write mutates the store seen by the remaining
ids.  Error messages are appended in processing order. -/
def batchLoop (new_parent_id : Nat) (target_project_id : Option Nat) :
    Store → List Nat → Nat → Nat → List String → Nat × Nat × List String × Store
  | st, [], moved, failedc, errs => (moved, failedc, errs, st)
  | st, subtask_id :: rest, moved, failedc, errs =>
    if wouldCreateCircularDependencyA st.adapter (walkFuel st) subtask_id new_parent_id then
      batchLoop new_parent_id target_project_id st rest moved (failedc + 1)
        (errs ++ [s!"Task {subtask_id}: would create circular dependency"])
    else
      match storeSearchTask st subtask_id with
      | [] =>
        batchLoop new_parent_id target_project_id st rest moved (failedc + 1)
          (errs ++ [s!"Task {subtask_id}: not found"])
      | _ :: _ =>
        let vals : Vals := { parent_id := some new_parent_id, project_id := target_project_id }
        batchLoop new_parent_id target_project_id (writeStore st subtask_id vals) rest
          (moved + 1) failedc errs

/-- The up-front `if target_project_id:` validation of
`move_multiple_subtasks`: `some e` is the failure message when a truthy
target project does not resolve. -/
def batchProjErr (s : Store) (target_project_id : Option Nat) : Option String :=
  match target_project_id with
  | none => none
  | some tp =>
    if tp == 0 then none
    else
      match storeSearchProject s tp with
      | [] => some s!"Project with ID {tp} not found"
      | _ :: _ => none

/-- `TaskManager.move_multiple_subtasks` against a concrete store: validate
the new parent and (when truthy) the target project once, then run the
per-id loop; `success` is `moved_count > 0`. -/
def move_multiple_subtasks (s : Store) (subtask_ids : List Nat) (new_parent_id : Nat)
    (target_project_id : Option Nat) : BatchOutcome × Store :=
  match storeSearchTask s new_parent_id with
  | [] => (.failed s!"Parent task with ID {new_parent_id} not found", s)
  | new_parent :: _ =>
    match batchProjErr s target_project_id with
    | some e => (.failed e, s)
    | none =>
      let r := batchLoop new_parent_id target_project_id s subtask_ids 0 0 []
      (.done { success := decide (0 < r.1), moved_count := r.1, failed_count := r.2.1
               errors := r.2.2.1, new_parent_name := new_parent.name }, r.2.2.2)

/-- The upward walk of `TaskManager._get_parent_chain`: `parents` accumulates
the parent records root-first (`parents.insert(0, ...)` prepends).  `none`
means the fuel ran out while the Python loop would still be running. -/
def chainWalk (s : Store) : Nat → List Nat → List Task → Nat → Option (List Task)
  | _, _, _, 0 => none
  | current, visited, parents, fuel + 1 =>
    if current == 0 || visited.contains current then some parents
    else
      match storeSearchTask s current with
      | [] => some parents
      | t :: _ =>
        match t.parent_id with
        | none => some parents
        | some p =>
          if p == 0 then some parents
          else
            match storeSearchTask s p with
            | [] => some parents
            | pt :: _ => chainWalk s p (current :: visited) (pt :: parents) fuel

/-- `TaskManager._get_parent_chain` with enough fuel for the walk. -/
def get_parent_chain (s : Store) (task_id : Nat) : List Task :=
  (chainWalk s task_id [] [] (walkFuel s)).getD []

/-- A built hierarchy node: one task record with its recursively fetched
children (the `children` key of the task dict; absent is the empty list). -/
inductive HNode : Type where
  | node (task : Task) (children : List HNode)

/-- `TaskManager._get_children_recursive`: if `current_depth >= max_depth`
return empty at once; otherwise one `parent_id =` child query for this node,
recursing one level deeper per child while `current_depth + 1 < max_depth`.
The second component counts the child queries issued. -/
def getChildrenRecursive (s : Store) (task_id max_depth current_depth : Nat) :
    List HNode × Nat :=
  if current_depth ≥ max_depth then ([], 0)
  else
    let child_records := s.tasks.filter (fun t => t.parent_id == some task_id)
    let results := child_records.map (fun child =>
      if current_depth + 1 < max_depth then
        let sub := getChildrenRecursive s child.id max_depth (current_depth + 1)
        (HNode.node child sub.1, sub.2)
      else
        (HNode.node child [], 0))
    (results.map Prod.fst, 1 + (results.map Prod.snd).sum)
termination_by max_depth - current_depth
decreasing_by simp_wf; omega

/-- A node of the JSON document built by `convert_hierarchy_for_web`:
`node_type` is `'task'` or `'project'` (the Python node's `type` key),
`stage` the cleaned stage name (`""` models an absent/falsy `stage` key),
`priorityLevel` the normalized priority `level`, plus the `children`
array. -/
inductive WebNode : Type where
  | node (node_type : String) (stage : String) (priorityLevel : Nat)
      (children : List WebNode)

mutual
/-- The stage occurrences `collect_filter_data` adds to its running set, in
visitation order (the Python `set` is modelled by collecting occurrences
and deduplicating at the end).  Mirroring the source exactly: a node
contributes, and its children are visited, only when the node's `type` is
`'task'`. -/
def collectStages : WebNode → List String
  | .node node_type stage _ children =>
    if node_type == "task" then
      (if stage != "" then [stage] else []) ++ collectStagesList children
    else []
def collectStagesList : List WebNode → List String
  | [] => []
  | n :: ns => collectStages n ++ collectStagesList ns
end

mutual
/-- The priority-level occurrences `collect_filter_data` adds to its running
set (for a task node the `priority` dict is always present and truthy). -/
def collectPriorities : WebNode → List Nat
  | .node node_type _ priorityLevel children =>
    if node_type == "task" then
      priorityLevel :: collectPrioritiesList children
    else []
def collectPrioritiesList : List WebNode → List Nat
  | [] => []
  | n :: ns => collectPriorities n ++ collectPrioritiesList ns
end

/-- Lexicographic comparison of char lists by code point, the order Python's
`sorted` uses on strings. -/
def charListLe : List Char → List Char → Bool
  | [], _ => true
  | _ :: _, [] => false
  | a :: as, b :: bs => if a = b then charListLe as bs else decide (a.toNat < b.toNat)

/-- Python's `<=` on strings: lexicographic by code point. -/
def strLe (a b : String) : Bool := charListLe a.data b.data

/-- `strLe` as a relation, for `List.insertionSort`. -/
def stringLeRel (a b : String) : Prop := strLe a b = true

instance : DecidableRel stringLeRel := fun a b => by unfold stringLeRel; infer_instance

/-- `sorted(list(stages))`: the distinct stage names, sorted. -/
def sortedStages (l : List String) : List String := l.dedup.insertionSort stringLeRel

/-- `sorted(list(priorities))`: the distinct priority levels, sorted. -/
def sortedPriorities (l : List Nat) : List Nat := l.dedup.insertionSort (· ≤ ·)

/-- `web_data['filter_data']` as computed for a hierarchy rooted at `root`:
the sorted deduplicated stage names and priority levels that
`collect_filter_data` gathered. -/
def filterData (root : WebNode) : List String × List Nat :=
  (sortedStages (collectStages root), sortedPriorities (collectPriorities root))

mutual
/-- The stage names present anywhere in the tree, task and project nodes'
subtrees alike.  Modelled from the spec: "the set of distinct stage names
and priority levels present anywhere in the tree" — this is the reference
the code's `collect_filter_data` is measured against. -/
def treeStagesAnywhere : WebNode → List String
  | .node _ stage _ children =>
    (if stage != "" then [stage] else []) ++ treeStagesAnywhereList children
def treeStagesAnywhereList : List WebNode → List String
  | [] => []
  | n :: ns => treeStagesAnywhere n ++ treeStagesAnywhereList ns
end

/-- The effective parent relation the engine operates on: the first record
with the given id and its truthy `parent_id`.  An id of `0` and a
`parent_id` of `0` are falsy in Python, so every walk and guard in the
source treats them as "no task" / "no parent". -/
def pf (s : Store) (x : Nat) : Option Nat :=
  if x = 0 then none
  else
    ((storeSearchTask s x).head?.bind Task.parent_id).bind
      (fun p => if p = 0 then none else some p)

/-- `k`-fold iteration of the parent relation from `x`: `none` once a point
with no parent has been passed. -/
def iterPf (s : Store) : Nat → Nat → Option Nat
  | 0, x => some x
  | k + 1, x =>
    match pf s x with
    | none => none
    | some p => iterPf s k p

/-- "Following `parent_id` from `x` at most `fuel` steps reaches a task with
no parent." -/
def reachesRoot (s : Store) : Nat → Nat → Bool
  | 0, x => (pf s x).isNone
  | fuel + 1, x =>
    match pf s x with
    | none => true
    | some p => reachesRoot s fuel p

/-- The spec's forest invariant: from every task in the store, following
`parent_id` at most total-task-count steps reaches a task with no
parent. -/
def acyclicB (s : Store) : Bool :=
  s.tasks.all (fun t => reachesRoot s s.tasks.length t.id)

/-- Data-model well-formedness of the remote store: `id` is a primary key
(no duplicates) and ids are genuine Odoo ids (nonzero, since `0` is falsy
in every guard of the source). -/
def WellFormed (s : Store) : Prop :=
  (taskIds s).Nodup ∧ 0 ∉ taskIds s

instance (s : Store) : Decidable (WellFormed s) := by unfold WellFormed; infer_instance

/-! ### Basic lemmas about the store, searches and writes -/

theorem applyVals_id (v : Vals) (t : Task) : (applyVals v t).id = t.id := rfl

theorem update_preserves_id (v : Vals) (i : Nat) (t : Task) :
    (if t.id == i then applyVals v t else t).id = t.id := by
  by_cases h : t.id = i
  · simp [h, applyVals_id]
  · simp [h]

theorem storeSearchTask_writeStore (s : Store) (i j : Nat) (v : Vals) :
    storeSearchTask (writeStore s i v) j =
      (storeSearchTask s j).map (fun t => if t.id == i then applyVals v t else t) := by
  unfold storeSearchTask writeStore
  rw [List.filter_map]
  have hp : ((fun t : Task => t.id == j) ∘ (fun t => if t.id == i then applyVals v t else t)) =
      fun t : Task => t.id == j := by
    funext t
    simp only [Function.comp_apply, update_preserves_id]
  rw [hp]

theorem taskIds_writeStore (s : Store) (i : Nat) (v : Vals) :
    taskIds (writeStore s i v) = taskIds s := by
  unfold taskIds writeStore
  rw [List.map_map]
  apply List.map_congr_left
  intro t _
  exact update_preserves_id v i t

theorem tasks_length_writeStore (s : Store) (i : Nat) (v : Vals) :
    (writeStore s i v).tasks.length = s.tasks.length := by
  unfold writeStore
  simp

theorem wellFormed_writeStore (s : Store) (i : Nat) (v : Vals) (h : WellFormed s) :
    WellFormed (writeStore s i v) := by
  unfold WellFormed at h ⊢
  rw [taskIds_writeStore]
  exact h

theorem mem_taskIds_of_searchTask {s : Store} {i : Nat}
    (h : storeSearchTask s i ≠ []) : i ∈ taskIds s := by
  match he : storeSearchTask s i with
  | [] => exact absurd he h
  | t :: ts =>
    have ht : t ∈ storeSearchTask s i := by rw [he]; exact List.mem_cons_self t ts
    have := List.mem_filter.mp ht
    have hid : t.id = i := by have := this.2; simpa using this
    unfold taskIds
    exact hid ▸ List.mem_map_of_mem Task.id this.1

theorem searchTask_eq_nil_of_not_mem {s : Store} {i : Nat}
    (h : i ∉ taskIds s) : storeSearchTask s i = [] := by
  by_cases he : storeSearchTask s i = []
  · exact he
  · exact absurd (mem_taskIds_of_searchTask he) h

/-- The head of an id search has that id. -/
theorem head_searchTask_id {s : Store} {i : Nat} {t : Task}
    (h : (storeSearchTask s i).head? = some t) : t.id = i := by
  have ht : t ∈ storeSearchTask s i := List.mem_of_mem_head? h
  have := (List.mem_filter.mp ht).2
  simpa using this

/-- Any nodup list included in `m` is no longer than `m.dedup`. -/
theorem nodup_length_le_dedup {l m : List Nat} (hn : l.Nodup)
    (hsub : ∀ v ∈ l, v ∈ m) : l.length ≤ m.dedup.length := by
  have h1 : l.toFinset.card = l.length := List.toFinset_card_of_nodup hn
  have h2 : l.toFinset ⊆ m.toFinset := by
    intro v hv
    rw [List.mem_toFinset] at hv ⊢
    exact hsub v hv
  calc l.length = l.toFinset.card := h1.symm
    _ ≤ m.toFinset.card := Finset.card_le_card h2
    _ = m.dedup.length := List.card_toFinset m

/-! ### Lemmas about the effective parent relation -/

theorem pf_eq_some_iff {s : Store} {x p : Nat} :
    pf s x = some p ↔
      x ≠ 0 ∧ p ≠ 0 ∧ ∃ t, (storeSearchTask s x).head? = some t ∧ t.parent_id = some p := by
  unfold pf
  by_cases hx : x = 0
  · simp [hx]
  · rw [if_neg hx]
    match hh : (storeSearchTask s x).head? with
    | none => simp [hx]
    | some t =>
      match hpar : t.parent_id with
      | none => simp [hx, hpar]
      | some q =>
        by_cases hq : q = 0
        · simp [hx, hpar, hq]
          omega
        · simp only [Option.some_bind, hpar, if_neg hq]
          constructor
          · intro h
            cases h
            exact ⟨hx, hq, t, rfl, hpar⟩
          · rintro ⟨-, -, u, hu, hup⟩
            cases hu
            rw [hup] at hpar
            cases hpar
            rfl

theorem pf_ne_zero {s : Store} {x p : Nat} (h : pf s x = some p) : x ≠ 0 ∧ p ≠ 0 := by
  have := pf_eq_some_iff.mp h
  exact ⟨this.1, this.2.1⟩

theorem pf_mem_taskIds {s : Store} {x p : Nat} (h : pf s x = some p) : x ∈ taskIds s := by
  obtain ⟨-, -, t, ht, -⟩ := pf_eq_some_iff.mp h
  apply mem_taskIds_of_searchTask
  intro hnil
  rw [hnil] at ht
  simp at ht

theorem pf_none_of_not_mem {s : Store} {x : Nat} (h : x ∉ taskIds s) : pf s x = none := by
  by_cases hx : x = 0
  · unfold pf; simp [hx]
  · unfold pf
    rw [if_neg hx, searchTask_eq_nil_of_not_mem h]
    rfl

/-- Writes to another id do not change the effective parent of `x`. -/
theorem pf_writeStore_ne (s : Store) (sid : Nat) (v : Vals) (x : Nat) (hx : x ≠ sid) :
    pf (writeStore s sid v) x = pf s x := by
  unfold pf
  by_cases hx0 : x = 0
  · simp [hx0]
  · rw [if_neg hx0, if_neg hx0, storeSearchTask_writeStore, List.head?_map]
    match hh : (storeSearchTask s x).head? with
    | none => rfl
    | some t =>
      have hid : t.id = x := head_searchTask_id hh
      have hts : ¬(t.id = sid) := by rw [hid]; exact hx
      simp [hts]

/-- After `write([sid], {parent_id: pid, ...})` the moved task's effective
parent is `pid` (or none if `pid` is the falsy id `0`). -/
theorem pf_writeStore_self (s : Store) (sid pid : Nat) (tp : Option Nat)
    (hne : storeSearchTask s sid ≠ []) (h0 : sid ≠ 0) :
    pf (writeStore s sid { parent_id := some pid, project_id := tp }) sid =
      if pid = 0 then none else some pid := by
  unfold pf
  rw [if_neg h0, storeSearchTask_writeStore, List.head?_map]
  match hh : (storeSearchTask s sid).head? with
  | none =>
    rw [List.head?_eq_none_iff] at hh
    exact absurd hh hne
  | some t =>
    have hid : t.id = sid := head_searchTask_id hh
    simp [hid, applyVals]

/-! ### Iterating the parent relation -/

theorem iterPf_zero (s : Store) (x : Nat) : iterPf s 0 x = some x := rfl

theorem iterPf_succ (s : Store) (k x : Nat) :
    iterPf s (k + 1) x =
      match pf s x with
      | none => none
      | some p => iterPf s k p := rfl

theorem iterPf_one (s : Store) (x : Nat) : iterPf s 1 x = pf s x := by
  rw [iterPf_succ]
  cases h : pf s x with
  | none => rfl
  | some p => rfl

theorem iterPf_add (s : Store) (a b x : Nat) :
    iterPf s (a + b) x = (iterPf s a x).bind (iterPf s b) := by
  induction a generalizing x with
  | zero => simp [iterPf_zero]
  | succ a ih =>
    have he : a + 1 + b = (a + b) + 1 := by omega
    rw [he, iterPf_succ, iterPf_succ]
    cases h : pf s x with
    | none => simp
    | some p => simp [ih]

theorem iterPf_isSome_of_le (s : Store) {j k x : Nat} (hjk : j ≤ k)
    (h : (iterPf s k x).isSome = true) : (iterPf s j x).isSome = true := by
  have he : k = j + (k - j) := by omega
  rw [he, iterPf_add] at h
  cases hj : iterPf s j x with
  | none => rw [hj] at h; simp at h
  | some y => simp

/-- The parent chain from `x` reaches a task with no parent in exactly `k`
steps. -/
def terminatesAt (s : Store) (k x : Nat) : Prop :=
  ∃ y, iterPf s k x = some y ∧ pf s y = none

theorem reachesRoot_iff (s : Store) : ∀ (fuel x : Nat),
    reachesRoot s fuel x = true ↔ ∃ k ≤ fuel, terminatesAt s k x := by
  intro fuel
  induction fuel with
  | zero =>
    intro x
    unfold reachesRoot
    constructor
    · intro h
      exact ⟨0, Nat.le_refl 0, x, rfl, Option.isNone_iff_eq_none.mp h⟩
    · rintro ⟨k, hk, y, hy, hpy⟩
      have hk0 : k = 0 := Nat.le_zero.mp hk
      subst hk0
      rw [iterPf_zero] at hy
      cases hy
      rw [hpy]
      rfl
  | succ fuel ih =>
    intro x
    rw [reachesRoot]
    cases h : pf s x with
    | none =>
      constructor
      · intro _
        exact ⟨0, Nat.zero_le _, x, rfl, h⟩
      · intro _
        rfl
    | some p =>
      rw [ih p]
      constructor
      · rintro ⟨k, hk, y, hy, hpy⟩
        refine ⟨k + 1, by omega, y, ?_, hpy⟩
        rw [iterPf_succ, h]
        exact hy
      · rintro ⟨k, hk, y, hy, hpy⟩
        match k with
        | 0 =>
          rw [iterPf_zero] at hy
          cases hy
          rw [h] at hpy
          cases hpy
        | k + 1 =>
          rw [iterPf_succ, h] at hy
          exact ⟨k, by omega, y, hy, hpy⟩

/-- Sliding a chain collision down: if the chain values at `j1 ≤ j2` agree
and the chain terminates at `k`, it also terminates at `j1 + (k - j2)`. -/
theorem terminates_shift (s : Store) {x k j1 j2 : Nat} (hj2 : j2 ≤ k)
    (heq : iterPf s j1 x = iterPf s j2 x) (h : terminatesAt s k x) :
    terminatesAt s (j1 + (k - j2)) x := by
  obtain ⟨y, hy, hpy⟩ := h
  refine ⟨y, ?_, hpy⟩
  have e1 : k = j2 + (k - j2) := by omega
  rw [e1, iterPf_add] at hy
  rw [iterPf_add, heq]
  exact hy

/-- A pf-chain with pairwise distinct values of length `k` (each of whose
values still has a parent) fits inside the distinct task ids. -/
theorem chain_length_le_dedup (s : Store) (x k : Nat)
    (hsome : ∀ j < k, (iterPf s (j + 1) x).isSome = true)
    (hinj : ∀ j1 j2, j1 < k → j2 < k → iterPf s j1 x = iterPf s j2 x → j1 = j2) :
    k ≤ (taskIds s).dedup.length := by
  classical
  have hval : ∀ j < k, iterPf s j x = some ((iterPf s j x).getD 0) := by
    intro j hj
    have h0 : (iterPf s j x).isSome = true :=
      iterPf_isSome_of_le s (Nat.le_succ j) (hsome j hj)
    cases hv : iterPf s j x with
    | none => rw [hv] at h0; simp at h0
    | some y => simp
  have hmem : ∀ j < k, (iterPf s j x).getD 0 ∈ taskIds s := by
    intro j hj
    have h1 := hsome j hj
    have hsplit : iterPf s (j + 1) x = (iterPf s j x).bind (pf s) := by
      have h2 := iterPf_add s j 1 x
      have h3 : (iterPf s j x).bind (iterPf s 1) = (iterPf s j x).bind (pf s) := by
        cases iterPf s j x with
        | none => rfl
        | some y => simp [iterPf_one]
      rw [← h3, ← h2]
    rw [hsplit, hval j hj] at h1
    simp only [Option.some_bind] at h1
    cases hp : pf s ((iterPf s j x).getD 0) with
    | none => rw [hp] at h1; simp at h1
    | some q => exact pf_mem_taskIds hp
  have hnd : ((List.range k).map (fun j => (iterPf s j x).getD 0)).Nodup := by
    apply List.Nodup.map_on
    · intro j1 h1 j2 h2 heq
      rw [List.mem_range] at h1 h2
      apply hinj j1 j2 h1 h2
      rw [hval j1 h1, hval j2 h2, heq]
    · exact List.nodup_range k
  have hsub : ∀ v ∈ (List.range k).map (fun j => (iterPf s j x).getD 0), v ∈ taskIds s := by
    intro v hv
    obtain ⟨j, hj, rfl⟩ := List.mem_map.mp hv
    exact hmem j (List.mem_range.mp hj)
  have := nodup_length_le_dedup hnd hsub
  simpa using this

/-- If the chain from `x` terminates at all, it terminates within the number
of tasks in the store (ids being a primary key). -/
theorem terminates_bound (s : Store) (hnd : (taskIds s).Nodup) (x : Nat) :
    ∀ k, terminatesAt s k x → ∃ m ≤ s.tasks.length, terminatesAt s m x := by
  intro k
  induction k using Nat.strong_induction_on with
  | _ k ih =>
    intro h
    by_cases hmin : ∃ j < k, terminatesAt s j x
    · obtain ⟨j, hj, hterm⟩ := hmin
      exact ih j hj hterm
    · push_neg at hmin
      have hk : k ≤ (taskIds s).dedup.length := by
        apply chain_length_le_dedup
        · intro j hj
          obtain ⟨y, hy, hpy⟩ := h
          have hk1 : (iterPf s k x).isSome = true := by rw [hy]; rfl
          exact iterPf_isSome_of_le s (show j + 1 ≤ k by omega) hk1
        · intro j1 j2 h1 h2 heq
          by_contra hne
          rcases Nat.lt_or_ge j1 j2 with hlt | hge
          · have := terminates_shift s (le_of_lt h2) heq h
            exact hmin (j1 + (k - j2)) (by omega) this
          · have hgt : j2 < j1 := by omega
            have := terminates_shift s (le_of_lt h1) heq.symm h
            exact hmin (j2 + (k - j1)) (by omega) this
      have hlen : (taskIds s).dedup.length = s.tasks.length := by
        rw [List.Nodup.dedup hnd]
        unfold taskIds
        simp
      exact ⟨k, by omega, h⟩

/-! ### Transfer of chains across a reparenting write -/

theorem iterPf_writeStore_congr (s : Store) (sid : Nat) (v : Vals) :
    ∀ (j x : Nat), (∀ j' < j, ∀ z, iterPf s j' x = some z → z ≠ sid) →
    iterPf (writeStore s sid v) j x = iterPf s j x := by
  intro j
  induction j with
  | zero => intro x _; rfl
  | succ j ih =>
    intro x hx
    rw [iterPf_succ, iterPf_succ]
    have hx0 : x ≠ sid := hx 0 (by omega) x rfl
    rw [pf_writeStore_ne s sid v x hx0]
    cases hp : pf s x with
    | none => rfl
    | some p =>
      apply ih
      intro j' hj' z hz
      apply hx (j' + 1) (by omega)
      rw [iterPf_succ, hp]
      exact hz

/-- A terminating chain that never passes through `sid` also terminates,
unchanged, after a write to `sid`. -/
theorem terminates_writeStore_of_avoid (s : Store) (sid : Nat) (v : Vals) {k x : Nat}
    (h : terminatesAt s k x)
    (havoid : ∀ j ≤ k, ∀ z, iterPf s j x = some z → z ≠ sid) :
    terminatesAt (writeStore s sid v) k x := by
  obtain ⟨y, hy, hpy⟩ := h
  have hcong := iterPf_writeStore_congr s sid v k x
    (fun j' hj' z hz => havoid j' (le_of_lt hj') z hz)
  refine ⟨y, by rw [hcong]; exact hy, ?_⟩
  rw [pf_writeStore_ne s sid v y (havoid k (Nat.le_refl k) y hy)]
  exact hpy

/-! ### Termination of the visited-set-guarded upward walks -/

theorem descWalk_isSome (s : Store) (anc : Nat) :
    ∀ (fuel cur : Nat) (visited : List Nat), visited.Nodup →
      (∀ u ∈ visited, u ∈ taskIds s) →
      (taskIds s).dedup.length + 1 ≤ fuel + visited.length →
      (descWalk s.adapter anc cur visited fuel).isSome = true := by
  intro fuel
  induction fuel with
  | zero =>
    intro cur visited hnd hsub hlen
    exfalso
    have := nodup_length_le_dedup hnd hsub
    omega
  | succ fuel ih =>
    intro cur visited hnd hsub hlen
    by_cases h0 : (cur == 0 || visited.contains cur) = true
    · rw [descWalk, if_pos h0]
      rfl
    · have h0f : (cur == 0 || visited.contains cur) = false := by
        simpa using h0
      cases hcr : storeSearchTask s cur with
      | nil =>
        rw [descWalk, if_neg h0]
        have hsearch : (Store.adapter s).searchTask cur = .ok (storeSearchTask s cur) := rfl
        rw [hsearch, hcr]
        rfl
      | cons t ts =>
        cases hpar : t.parent_id with
        | none =>
          rw [descWalk, if_neg h0]
          have hsearch : (Store.adapter s).searchTask cur = .ok (storeSearchTask s cur) := rfl
          rw [hsearch, hcr]
          simp [hpar]
        | some p =>
          by_cases hp0 : p = 0
          · rw [descWalk, if_neg h0]
            have hsearch : (Store.adapter s).searchTask cur = .ok (storeSearchTask s cur) := rfl
            rw [hsearch, hcr]
            simp [hpar, hp0]
          · by_cases hpa : p = anc
            · rw [descWalk, if_neg h0]
              have hsearch : (Store.adapter s).searchTask cur = .ok (storeSearchTask s cur) := rfl
              rw [hsearch, hcr]
              simp only [hpar, hp0, hpa]
              split
              · rfl
              · simp
            · have heq : descWalk s.adapter anc cur visited (fuel + 1) =
                  descWalk s.adapter anc p (cur :: visited) fuel := by
                rw [descWalk, if_neg h0]
                have hsearch : (Store.adapter s).searchTask cur = .ok (storeSearchTask s cur) := rfl
                rw [hsearch, hcr]
                simp [hpar, hp0, hpa]
              rw [heq]
              have hcurmem : cur ∈ taskIds s :=
                mem_taskIds_of_searchTask (by rw [hcr]; simp)
              have hcurnot : cur ∉ visited := by
                intro hmem
                apply h0
                simp [hmem]
              apply ih p (cur :: visited)
              · exact List.Nodup.cons hcurnot hnd
              · intro u hu
                rcases List.mem_cons.mp hu with h | h
                · exact h ▸ hcurmem
                · exact hsub u h
              · simp only [List.length_cons]
                omega

theorem chainWalk_isSome (s : Store) :
    ∀ (fuel cur : Nat) (visited : List Nat) (parents : List Task), visited.Nodup →
      (∀ u ∈ visited, u ∈ taskIds s) →
      (taskIds s).dedup.length + 1 ≤ fuel + visited.length →
      (chainWalk s cur visited parents fuel).isSome = true := by
  intro fuel
  induction fuel with
  | zero =>
    intro cur visited parents hnd hsub hlen
    exfalso
    have := nodup_length_le_dedup hnd hsub
    omega
  | succ fuel ih =>
    intro cur visited parents hnd hsub hlen
    by_cases h0 : (cur == 0 || visited.contains cur) = true
    · rw [chainWalk, if_pos h0]
      rfl
    · cases hcr : storeSearchTask s cur with
      | nil =>
        rw [chainWalk, if_neg h0, hcr]
        rfl
      | cons t ts =>
        cases hpar : t.parent_id with
        | none =>
          rw [chainWalk, if_neg h0, hcr]
          simp [hpar]
        | some p =>
          by_cases hp0 : p = 0
          · rw [chainWalk, if_neg h0, hcr]
            simp [hpar, hp0]
          · cases hpr : storeSearchTask s p with
            | nil =>
              rw [chainWalk, if_neg h0, hcr]
              simp [hpar, hp0, hpr]
            | cons pt pts =>
              have heq : chainWalk s cur visited parents (fuel + 1) =
                  chainWalk s p (cur :: visited) (pt :: parents) fuel := by
                rw [chainWalk, if_neg h0, hcr]
                simp [hpar, hp0, hpr]
              rw [heq]
              have hcurmem : cur ∈ taskIds s :=
                mem_taskIds_of_searchTask (by rw [hcr]; simp)
              have hcurnot : cur ∉ visited := by
                intro hmem
                apply h0
                simp [hmem]
              apply ih p (cur :: visited) (pt :: parents)
              · exact List.Nodup.cons hcurnot hnd
              · intro u hu
                rcases List.mem_cons.mp hu with h | h
                · exact h ▸ hcurmem
                · exact hsub u h
              · simp only [List.length_cons]
                omega

/-! ### The walk detects an actual parent chain hitting the ancestor -/

/-- If the `j+1`-st value of the parent chain from `cur` is `sid`, no earlier
chain value is `sid` or already visited, and the chain values at distinct
indices are distinct, then the `_is_descendant` walk reports `True`. -/
theorem descWalk_true_of_chain (s : Store) (sid : Nat) :
    ∀ (j cur : Nat) (visited : List Nat) (fuel : Nat),
      iterPf s (j + 1) cur = some sid →
      (∀ j1 j2, j1 < j2 → j2 ≤ j → ∀ z1 z2, iterPf s j1 cur = some z1 →
        iterPf s j2 cur = some z2 → z1 ≠ z2) →
      (∀ j' ≤ j, ∀ z, iterPf s j' cur = some z → z ≠ sid ∧ z ∉ visited) →
      j + 1 ≤ fuel →
      descWalk s.adapter sid cur visited fuel = some true := by
  intro j
  induction j with
  | zero =>
    intro cur visited fuel h1 _ havoid hfuel
    rw [iterPf_one] at h1
    obtain ⟨hx0, hsid0, t, ht, htp⟩ := pf_eq_some_iff.mp h1
    obtain ⟨hcurne, hcurnot⟩ := havoid 0 (Nat.le_refl 0) cur rfl
    match fuel, hfuel with
    | fuel + 1, _ =>
      have hg : ¬((cur == 0 || visited.contains cur) = true) := by
        simp [hx0, hcurnot]
      rw [descWalk, if_neg hg]
      have hsearch : (Store.adapter s).searchTask cur = .ok (storeSearchTask s cur) := rfl
      rw [hsearch]
      cases hcr : storeSearchTask s cur with
      | nil => rw [hcr] at ht; simp at ht
      | cons u us =>
        rw [hcr] at ht
        have hut : u = t := by simpa using ht
        subst hut
        simp [htp, hsid0]
  | succ j ih =>
    intro cur visited fuel h1 hinj havoid hfuel
    have hpf : ∃ p, pf s cur = some p := by
      rw [iterPf_succ] at h1
      cases hp : pf s cur with
      | none => rw [hp] at h1; simp at h1
      | some p => exact ⟨p, rfl⟩
    obtain ⟨p, hp⟩ := hpf
    obtain ⟨hx0, hp0, t, ht, htp⟩ := pf_eq_some_iff.mp hp
    obtain ⟨hcurne, hcurnot⟩ := havoid 0 (Nat.zero_le _) cur rfl
    have hpval : iterPf s 1 cur = some p := by rw [iterPf_one]; exact hp
    have hpne : p ≠ sid ∧ p ∉ visited := havoid 1 (by omega) p hpval
    have hshift : ∀ m z, iterPf s m p = some z → iterPf s (m + 1) cur = some z := by
      intro m z hz
      have he : m + 1 = 1 + m := by omega
      rw [he, iterPf_add, hpval]
      simpa using hz
    match fuel, hfuel with
    | fuel + 1, hfuel =>
      have hg : ¬((cur == 0 || visited.contains cur) = true) := by
        simp [hx0, hcurnot]
      have heq : descWalk s.adapter sid cur visited (fuel + 1) =
          descWalk s.adapter sid p (cur :: visited) fuel := by
        rw [descWalk, if_neg hg]
        have hsearch : (Store.adapter s).searchTask cur = .ok (storeSearchTask s cur) := rfl
        rw [hsearch]
        cases hcr : storeSearchTask s cur with
        | nil => rw [hcr] at ht; simp at ht
        | cons u us =>
          rw [hcr] at ht
          have hut : u = t := by simpa using ht
          subst hut
          simp [htp, hp0, hpne.1]
      rw [heq]
      apply ih p (cur :: visited) fuel
      · have h2 : iterPf s (j + 1 + 1) cur = some sid := h1
        have h3 : j + 1 + 1 = 1 + (j + 1) := by omega
        rw [h3, iterPf_add, hpval] at h2
        simpa using h2
      · intro j1 j2 hj12 hj2 z1 z2 hz1 hz2
        exact hinj (j1 + 1) (j2 + 1) (by omega) (by omega) z1 z2
          (hshift j1 z1 hz1) (hshift j2 z2 hz2)
      · intro j' hj' z hz
        have horig := havoid (j' + 1) (by omega) z (hshift j' z hz)
        refine ⟨horig.1, ?_⟩
        intro hmem
        rcases List.mem_cons.mp hmem with h | h
        · exact hinj 0 (j' + 1) (by omega) (by omega) cur z rfl
            (hshift j' z hz) h.symm
        · exact horig.2 h
      · omega

/-- Contrapositive of `descWalk_true_of_chain`: when the descendant walk
reports `False` (with full fuel), the parent chain from `pid` never reaches
`sid`. -/
theorem no_chain_hit_of_walk_false (s : Store) (sid pid : Nat)
    (hne : pid ≠ sid)
    (hwalk : (descWalk s.adapter sid pid [] (walkFuel s)).getD false = false) :
    ∀ j, 1 ≤ j → iterPf s j pid ≠ some sid := by
  by_contra hcon
  push_neg at hcon
  obtain ⟨j, hj1, hj⟩ := hcon
  classical
  have hex : ∃ m, iterPf s m pid = some sid := ⟨j, hj⟩
  set m0 := Nat.find hex with hm0def
  have hm0 : iterPf s m0 pid = some sid := Nat.find_spec hex
  have hmin : ∀ i < m0, iterPf s i pid ≠ some sid := fun i hi => Nat.find_min hex hi
  have hm0pos : 1 ≤ m0 := by
    rcases Nat.eq_zero_or_pos m0 with h | h
    · rw [h, iterPf_zero] at hm0
      cases hm0
      exact absurd rfl hne
    · exact h
  obtain ⟨jm, hjm⟩ : ∃ jm, m0 = jm + 1 := ⟨m0 - 1, by omega⟩
  have hm0some : (iterPf s m0 pid).isSome = true := by rw [hm0]; rfl
  have hinj : ∀ j1 j2, j1 < j2 → j2 ≤ jm → ∀ z1 z2, iterPf s j1 pid = some z1 →
      iterPf s j2 pid = some z2 → z1 ≠ z2 := by
    intro j1 j2 h12 h2m z1 z2 hz1 hz2 hzz
    have heq : iterPf s j1 pid = iterPf s j2 pid := by rw [hz1, hz2, hzz]
    have e1 : m0 = j2 + (m0 - j2) := by omega
    have : iterPf s (j1 + (m0 - j2)) pid = some sid := by
      rw [iterPf_add, heq, ← iterPf_add, ← e1]
      exact hm0
    exact hmin (j1 + (m0 - j2)) (by omega) this
  have hinjfull : ∀ j1 j2, j1 < m0 → j2 < m0 → iterPf s j1 pid = iterPf s j2 pid → j1 = j2 := by
    intro j1 j2 h1 h2 heq
    by_contra hne12
    rcases Nat.lt_or_ge j1 j2 with hlt | hge
    · have e1 : m0 = j2 + (m0 - j2) := by omega
      have : iterPf s (j1 + (m0 - j2)) pid = some sid := by
        rw [iterPf_add, heq, ← iterPf_add, ← e1]
        exact hm0
      exact hmin (j1 + (m0 - j2)) (by omega) this
    · have hlt2 : j2 < j1 := by omega
      have e1 : m0 = j1 + (m0 - j1) := by omega
      have : iterPf s (j2 + (m0 - j1)) pid = some sid := by
        rw [iterPf_add, ← heq, ← iterPf_add, ← e1]
        exact hm0
      exact hmin (j2 + (m0 - j1)) (by omega) this
  have hbound : m0 ≤ (taskIds s).dedup.length := by
    apply chain_length_le_dedup s pid m0
    · intro i hi
      exact iterPf_isSome_of_le s (by omega) hm0some
    · exact hinjfull
  have havoid : ∀ j' ≤ jm, ∀ z, iterPf s j' pid = some z → z ≠ sid ∧ z ∉ ([] : List Nat) := by
    intro j' hj' z hz
    refine ⟨?_, by simp⟩
    intro hzs
    subst hzs
    exact hmin j' (by omega) hz
  have htrue : descWalk s.adapter sid pid [] (walkFuel s) = some true := by
    apply descWalk_true_of_chain s sid jm pid [] (walkFuel s)
    · rw [← hjm]; exact hm0
    · exact hinj
    · exact havoid
    · unfold walkFuel; omega
  rw [htrue] at hwalk
  simp at hwalk

/-- Where `move_subtask` writes: either nothing (a precondition failed), or
exactly the one reparenting write, in which case both tasks resolved, the
move is not a self-move, and the descendant walk reported `False`. -/
theorem move_subtask_writes (s : Store) (sid pid : Nat) (tp : Option Nat) :
    (move_subtask s sid pid tp).2 = [] ∨
    ((move_subtask s sid pid tp).2 = [(sid, { parent_id := some pid, project_id := tp })] ∧
      storeSearchTask s sid ≠ [] ∧ storeSearchTask s pid ≠ [] ∧ sid ≠ pid ∧
      (descWalk s.adapter sid pid [] (walkFuel s)).getD false = false) := by
  unfold move_subtask moveSubtaskA
  have hs1 : (Store.adapter s).searchTask sid = .ok (storeSearchTask s sid) := rfl
  have hs2 : (Store.adapter s).searchTask pid = .ok (storeSearchTask s pid) := rfl
  rw [hs1, hs2]
  cases h1 : storeSearchTask s sid with
  | nil => left; rfl
  | cons t1 ts1 =>
    cases h2 : storeSearchTask s pid with
    | nil => left; rfl
    | cons t2 ts2 =>
      cases h3 : projectValidate (Store.adapter s) tp with
      | error r => left; rfl
      | ok pn =>
        by_cases h4 : wouldCreateCircularDependencyA (Store.adapter s) (walkFuel s) sid pid = true
        · left
          simp [h4]
        · have h4f : wouldCreateCircularDependencyA (Store.adapter s) (walkFuel s) sid pid
              = false := by simpa using h4
          have hparts := h4f
          unfold wouldCreateCircularDependencyA at hparts
          rw [Bool.or_eq_false_iff] at hparts
          right
          refine ⟨?_, by simp [h1], by simp [h2], by simpa using hparts.1, hparts.2⟩
          simp [h4f]
          rfl

/-- Preserving global chain termination across one validated reparenting
write. -/
theorem terminates_all_writeParent (s : Store) (sid pid : Nat) (tp : Option Nat)
    (hsid : storeSearchTask s sid ≠ []) (hsid0 : sid ≠ 0)
    (hpidne : pid ≠ sid)
    (hnohit : ∀ j, 1 ≤ j → iterPf s j pid ≠ some sid)
    (hterm : ∀ x, ∃ k, terminatesAt s k x) (x : Nat) :
    ∃ k, terminatesAt (writeStore s sid { parent_id := some pid, project_id := tp }) k x := by
  classical
  obtain ⟨k, hk⟩ := hterm x
  by_cases hhit : ∃ i, iterPf s i x = some sid
  · set j0 := Nat.find hhit with hj0def
    have hj0 : iterPf s j0 x = some sid := Nat.find_spec hhit
    have hj0min : ∀ i < j0, iterPf s i x ≠ some sid := fun i hi => Nat.find_min hhit hi
    have hcong : iterPf (writeStore s sid { parent_id := some pid, project_id := tp }) j0 x
        = iterPf s j0 x := by
      apply iterPf_writeStore_congr
      intro i hi z hz hzs
      subst hzs
      exact hj0min i hi hz
    have hpfs := pf_writeStore_self s sid pid tp hsid hsid0
    by_cases hpid0 : pid = 0
    · refine ⟨j0, sid, by rw [hcong]; exact hj0, ?_⟩
      rw [hpfs]
      simp [hpid0]
    · obtain ⟨m, hm⟩ := hterm pid
      have havoidp : ∀ j ≤ m, ∀ z, iterPf s j pid = some z → z ≠ sid := by
        intro j hj z hz hzs
        subst hzs
        match j with
        | 0 =>
          rw [iterPf_zero] at hz
          cases hz
          exact absurd rfl hpidne
        | j + 1 => exact hnohit (j + 1) (by omega) hz
      have hmterm := terminates_writeStore_of_avoid s sid
        { parent_id := some pid, project_id := tp } hm havoidp
      obtain ⟨y, hy, hpy⟩ := hmterm
      refine ⟨j0 + (1 + m), y, ?_, hpy⟩
      rw [iterPf_add, hcong, hj0]
      simp only [Option.some_bind]
      have h1sid : iterPf (writeStore s sid { parent_id := some pid, project_id := tp }) 1 sid
          = some pid := by
        rw [iterPf_one, hpfs]
        simp [hpid0]
      rw [iterPf_add, h1sid]
      simpa using hy
  · push_neg at hhit
    refine ⟨k, terminates_writeStore_of_avoid s sid _ hk ?_⟩
    intro i _ z hz hzs
    subst hzs
    exact hhit i hz

/-- The forest invariant, phrased via global chain termination. -/
theorem acyclicB_iff_terminates (s : Store) (hnd : (taskIds s).Nodup) :
    acyclicB s = true ↔ ∀ x, ∃ k, terminatesAt s k x := by
  unfold acyclicB
  rw [List.all_eq_true]
  constructor
  · intro h x
    by_cases hx : x ∈ taskIds s
    · obtain ⟨t, ht, hid⟩ := List.mem_map.mp hx
      obtain ⟨k, _, hterm⟩ := (reachesRoot_iff s s.tasks.length t.id).mp (h t ht)
      exact ⟨k, hid ▸ hterm⟩
    · exact ⟨0, x, rfl, pf_none_of_not_mem hx⟩
  · intro h t ht
    obtain ⟨k, hk⟩ := h t.id
    obtain ⟨m, hm, hterm⟩ := terminates_bound s hnd t.id k hk
    exact (reachesRoot_iff s s.tasks.length t.id).mpr ⟨m, hm, hterm⟩

/-- One sequential `move_subtask` call keeps the store well-formed and keeps
the parent relation a forest. -/
theorem moveStep_preserves (s : Store) (m : Nat × Nat × Option Nat)
    (hwf : WellFormed s) (hac : acyclicB s = true) :
    WellFormed (moveStep s m) ∧ acyclicB (moveStep s m) = true := by
  obtain ⟨sid, pid, tp⟩ := m
  rcases move_subtask_writes s sid pid tp with hw | ⟨hw, hsid, hpid, hne, hwalk⟩
  · unfold moveStep
    rw [hw]
    exact ⟨hwf, hac⟩
  · unfold moveStep
    rw [hw]
    have happ : applyWriteOps s [(sid, { parent_id := some pid, project_id := tp })]
        = writeStore s sid { parent_id := some pid, project_id := tp } := rfl
    rw [happ]
    have hsid0 : sid ≠ 0 := by
      intro h
      exact hwf.2 (h ▸ mem_taskIds_of_searchTask hsid)
    have hnohit := no_chain_hit_of_walk_false s sid pid (Ne.symm hne) hwalk
    have hterm := (acyclicB_iff_terminates s hwf.1).mp hac
    have hterm2 := terminates_all_writeParent s sid pid tp hsid hsid0 (Ne.symm hne) hnohit hterm
    have hwf2 := wellFormed_writeStore s sid { parent_id := some pid, project_id := tp } hwf
    exact ⟨hwf2, (acyclicB_iff_terminates _ hwf2.1).mpr hterm2⟩

/-! ### Helper lemmas shared by the claim theorems -/

theorem projectValidate_error_success {a : Adapter} {tp : Option Nat} {r : MoveResult}
    (h : projectValidate a tp = .error r) : r.success = false := by
  unfold projectValidate at h
  split at h
  · cases h
  · split at h
    · cases h
    · split at h
      · cases h
        rfl
      · cases h
        rfl
      · cases h

/-- Whenever the circular-dependency check fires, `move_subtask` fails and
issues no write, whatever else the store contains. -/
theorem move_fails_of_circular (s : Store) (sid pid : Nat) (tp : Option Nat)
    (h : wouldCreateCircularDependencyA (Store.adapter s) (walkFuel s) sid pid = true) :
    (move_subtask s sid pid tp).1.success = false ∧ (move_subtask s sid pid tp).2 = [] := by
  unfold move_subtask moveSubtaskA
  have hs1 : (Store.adapter s).searchTask sid = .ok (storeSearchTask s sid) := rfl
  have hs2 : (Store.adapter s).searchTask pid = .ok (storeSearchTask s pid) := rfl
  rw [hs1, hs2]
  cases h1 : storeSearchTask s sid with
  | nil => exact ⟨rfl, rfl⟩
  | cons t1 ts1 =>
    cases h2 : storeSearchTask s pid with
    | nil => exact ⟨rfl, rfl⟩
    | cons t2 ts2 =>
      cases h3 : projectValidate (Store.adapter s) tp with
      | error r => exact ⟨projectValidate_error_success h3, rfl⟩
      | ok pn => exact ⟨by simp [h, moveErr], by simp [h]⟩

/-! ### Concrete stores and trees used by the witnesses -/

def taskA : Task := { id := 1, name := "A", parent_id := none, project_id := some 7 }

def taskB : Task := { id := 2, name := "B", parent_id := some 1, project_id := some 7 }

def taskC : Task := { id := 3, name := "C", parent_id := some 2, project_id := some 7 }

/-- A three-task forest `A ← B ← C` inside project 7. -/
def forestStore : Store :=
  { tasks := [taskA, taskB, taskC], projects := [{ id := 7, name := "P" }] }

/-! ### The claims -/

/-- C3: for every task id `X` and every (possibly absent) project argument,
`move_subtask(X, X, ...)` returns a failure result and issues no update to
the remote store. -/
theorem self_move_always_rejected (s : Store) (x : Nat) (tp : Option Nat) :
    (move_subtask s x x tp).1.success = false ∧ (move_subtask s x x tp).2 = [] :=
  move_fails_of_circular s x x tp (by simp [wouldCreateCircularDependencyA])

/-- C7: whenever `current_depth >= max_depth`, `_get_children_recursive`
returns the empty list and issues no child query, whatever descendants the
store holds beyond that depth. -/
theorem build_children_depth_cutoff (s : Store) (task_id max_depth current_depth : Nat)
    (h : current_depth ≥ max_depth) :
    getChildrenRecursive s task_id max_depth current_depth = ([], 0) := by
  rw [getChildrenRecursive]
  simp [h]

/-- Witness for C7 at the spec's own instance: `forestStore` has a child of
task 1 at depth 1 and a grandchild at depth 2, yet the call with
`max_depth = 2`, `depth = 2` returns no children and issues no query. -/
theorem build_children_depth_cutoff_witness :
    2 ≥ 2 ∧ getChildrenRecursive forestStore 1 2 2 = ([], 0) :=
  ⟨by decide, build_children_depth_cutoff forestStore 1 2 2 (by decide)⟩

/-- C9: with one unit of fuel per distinct task id (plus one), both the
`_is_descendant` walk and the `_get_parent_chain` walk come back — for every
store, even one whose `parent_id` relation is corrupt and cyclic: each walk
stops at a task with no parent, at a missing record, or on revisiting an
already-seen id. -/
theorem upward_walks_terminate (s : Store) (anc start : Nat) :
    (descWalk s.adapter anc start [] (walkFuel s)).isSome = true ∧
    (chainWalk s start [] [] (walkFuel s)).isSome = true := by
  constructor
  · apply descWalk_isSome s anc (walkFuel s) start [] List.nodup_nil (by simp)
    simp [walkFuel]
  · apply chainWalk_isSome s (walkFuel s) start [] [] List.nodup_nil (by simp)
    simp [walkFuel]

/-- C2: in any store holding a chain `A ← B ← C` of three distinct (genuine,
nonzero-id) tasks, `move_subtask(A, C, *)` fails for every project argument
and issues no update: the store is unchanged. -/
theorem descendant_move_rejected (s : Store) (a b c : Nat) (tp : Option Nat)
    (tb tc : Task)
    (hc : (storeSearchTask s c).head? = some tc) (hcp : tc.parent_id = some b)
    (hb : (storeSearchTask s b).head? = some tb) (hbp : tb.parent_id = some a)
    (ha0 : a ≠ 0) (hb0 : b ≠ 0) (hc0 : c ≠ 0)
    (hab : a ≠ b) (hbc : b ≠ c) (hac : a ≠ c) :
    (move_subtask s a c tp).1.success = false ∧ (move_subtask s a c tp).2 = [] ∧
    applyWriteOps s (move_subtask s a c tp).2 = s := by
  have hcne : storeSearchTask s c ≠ [] := by
    intro hnil
    rw [hnil] at hc
    cases hc
  have hbne : storeSearchTask s b ≠ [] := by
    intro hnil
    rw [hnil] at hb
    cases hb
  have hcid : c ∈ taskIds s := mem_taskIds_of_searchTask hcne
  have hbid : b ∈ taskIds s := mem_taskIds_of_searchTask hbne
  have h2 : 2 ≤ (taskIds s).dedup.length := by
    have hsub : ∀ v ∈ [b, c], v ∈ taskIds s := by
      intro v hv
      rcases List.mem_cons.mp hv with h | h
      · exact h ▸ hbid
      · simp at h
        exact h ▸ hcid
    have := nodup_length_le_dedup (l := [b, c]) (by simp [hbc]) hsub
    simpa using this
  obtain ⟨n, hn⟩ : ∃ n, walkFuel s = n + 2 := ⟨walkFuel s - 2, by unfold walkFuel; omega⟩
  have hwalk : descWalk s.adapter a c [] (walkFuel s) = some true := by
    rw [hn]
    have hg1 : ¬((c == 0 || ([] : List Nat).contains c) = true) := by simp [hc0]
    have hsc : (Store.adapter s).searchTask c = .ok (storeSearchTask s c) := rfl
    cases hl1 : storeSearchTask s c with
    | nil => exact absurd hl1 hcne
    | cons u us =>
      rw [hl1] at hc
      have hu : u = tc := by simpa using hc
      subst hu
      have hba : ¬(b = a) := fun h => hab h.symm
      have heq1 : descWalk s.adapter a c [] (n + 1 + 1) = descWalk s.adapter a b [c] (n + 1) := by
        rw [descWalk, if_neg hg1, hsc, hl1]
        simp [hcp, hb0, hba]
      rw [heq1]
      have hg2 : ¬((b == 0 || ([c] : List Nat).contains b) = true) := by
        simp [hb0, hbc]
      have hsb : (Store.adapter s).searchTask b = .ok (storeSearchTask s b) := rfl
      cases hl2 : storeSearchTask s b with
      | nil => exact absurd hl2 hbne
      | cons w ws =>
        rw [hl2] at hb
        have hw : w = tb := by simpa using hb
        subst hw
        rw [descWalk, if_neg hg2, hsb, hl2]
        simp [hbp, ha0]
  have hcirc : wouldCreateCircularDependencyA (Store.adapter s) (walkFuel s) a c = true := by
    unfold wouldCreateCircularDependencyA
    rw [hwalk]
    simp
  obtain ⟨hfail, hwrites⟩ := move_fails_of_circular s a c tp hcirc
  refine ⟨hfail, hwrites, ?_⟩
  rw [hwrites]
  rfl

/-- Witness for C2 on the concrete forest `A ← B ← C`. -/
theorem descendant_move_rejected_witness :
    (move_subtask forestStore 1 3 (some 7)).1.success = false ∧
    (move_subtask forestStore 1 3 (some 7)).2 = [] ∧
    applyWriteOps forestStore (move_subtask forestStore 1 3 (some 7)).2 = forestStore :=
  descendant_move_rejected forestStore 1 2 3 (some 7) taskB taskC rfl rfl rfl rfl
    (by decide) (by decide) (by decide) (by decide) (by decide) (by decide)

/-- C6: `promote_task` on an existing task with no (truthy) parent fails and
writes nothing; on an existing task with a parent it issues exactly the one
write clearing `parent_id`, after which a second `promote_task` on the same
task fails and writes nothing. -/
theorem promote_parent_guard (s : Store) (x : Nat) (t : Task)
    (ht : (storeSearchTask s x).head? = some t) :
    ((t.parent_id = none ∨ t.parent_id = some 0) →
      (promote_task s x).1.success = false ∧ (promote_task s x).2 = []) ∧
    (∀ p, t.parent_id = some p → p ≠ 0 →
      (promote_task s x).1.success = true ∧
      (promote_task s x).2 = [(x, { parent_id := none, project_id := none })] ∧
      (promote_task (applyWriteOps s (promote_task s x).2) x).1.success = false ∧
      (promote_task (applyWriteOps s (promote_task s x).2) x).2 = []) := by
  have hne : storeSearchTask s x ≠ [] := by
    intro hnil
    rw [hnil] at ht
    cases ht
  have hs1 : (Store.adapter s).searchTask x = .ok (storeSearchTask s x) := rfl
  constructor
  · intro hpar
    unfold promote_task promoteA
    rw [hs1]
    cases hl : storeSearchTask s x with
    | nil => exact absurd hl hne
    | cons u us =>
      rw [hl] at ht
      have hu : u = t := by simpa using ht
      subst hu
      rcases hpar with h | h
      · simp [h, promoteErr]
      · simp [h, promoteErr]
  · intro p hpar hp0
    have htid : t.id = x := head_searchTask_id ht
    have hw2 : (promote_task s x).2 = [(x, { parent_id := none, project_id := none })] := by
      unfold promote_task promoteA
      rw [hs1]
      cases hl : storeSearchTask s x with
      | nil => exact absurd hl hne
      | cons u us =>
        rw [hl] at ht
        have hu : u = t := by simpa using ht
        subst hu
        simp [hpar, hp0, Store.adapter]
    have hsucc : (promote_task s x).1.success = true := by
      unfold promote_task promoteA
      rw [hs1]
      cases hl : storeSearchTask s x with
      | nil => exact absurd hl hne
      | cons u us =>
        rw [hl] at ht
        have hu : u = t := by simpa using ht
        subst hu
        simp [hpar, hp0, Store.adapter]
    have hs2eq : applyWriteOps s (promote_task s x).2
        = writeStore s x { parent_id := none, project_id := none } := by
      rw [hw2]
      rfl
    have hsearch2 : (storeSearchTask
        (writeStore s x { parent_id := none, project_id := none }) x).head?
        = some (applyVals { parent_id := none, project_id := none } t) := by
      rw [storeSearchTask_writeStore, List.head?_map, ht]
      simp [htid]
    refine ⟨hsucc, hw2, ?_, ?_⟩
    · rw [hs2eq]
      unfold promote_task promoteA
      have hs3 : (Store.adapter (writeStore s x { parent_id := none, project_id := none
          })).searchTask x = .ok (storeSearchTask
          (writeStore s x { parent_id := none, project_id := none }) x) := rfl
      rw [hs3]
      cases hl2 : storeSearchTask (writeStore s x { parent_id := none, project_id := none }) x with
      | nil =>
        simp [hl2] at hsearch2
      | cons w ws =>
        rw [hl2] at hsearch2
        have hw : w = applyVals { parent_id := none, project_id := none } t := by
          simpa using hsearch2
        subst hw
        simp [applyVals, promoteErr]
    · rw [hs2eq]
      unfold promote_task promoteA
      have hs3 : (Store.adapter (writeStore s x { parent_id := none, project_id := none
          })).searchTask x = .ok (storeSearchTask
          (writeStore s x { parent_id := none, project_id := none }) x) := rfl
      rw [hs3]
      cases hl2 : storeSearchTask (writeStore s x { parent_id := none, project_id := none }) x with
      | nil =>
        simp [hl2] at hsearch2
      | cons w ws =>
        rw [hl2] at hsearch2
        have hw : w = applyVals { parent_id := none, project_id := none } t := by
          simpa using hsearch2
        subst hw
        simp [applyVals, promoteErr]

/-- Witness for C6: in the forest, task 1 has no parent (promote fails,
nothing written); task 3 has parent 2, its promotion writes exactly the
parent-clearing update, and promoting it again in the updated store
fails. -/
theorem promote_parent_guard_witness :
    ((promote_task forestStore 1).1.success = false ∧ (promote_task forestStore 1).2 = []) ∧
    ((promote_task forestStore 3).1.success = true ∧
      (promote_task forestStore 3).2 = [(3, { parent_id := none, project_id := none })] ∧
      (promote_task (applyWriteOps forestStore (promote_task forestStore 3).2) 3).1.success
        = false ∧
      (promote_task (applyWriteOps forestStore (promote_task forestStore 3).2) 3).2 = []) := by
  constructor
  · exact (promote_parent_guard forestStore 1 taskA rfl).1 (Or.inl rfl)
  · exact (promote_parent_guard forestStore 3 taskC rfl).2 2 rfl (by decide)

/-- Arithmetic of the per-id loop: every id adds exactly one to `moved` or to
`failed`, and exactly the failed ones append an error message. -/
theorem batchLoop_spec (pid2 : Nat) (tp : Option Nat) :
    ∀ (ids : List Nat) (st : Store) (moved failedc : Nat) (errs : List String)
      (moved2 failed2 : Nat) (errs2 : List String) (st2 : Store),
      batchLoop pid2 tp st ids moved failedc errs = (moved2, failed2, errs2, st2) →
      moved2 + failed2 = moved + failedc + ids.length ∧
      errs2.length + failedc = errs.length + failed2 := by
  intro ids
  induction ids with
  | nil =>
    intro st moved failedc errs moved2 failed2 errs2 st2 h
    rw [batchLoop] at h
    cases h
    constructor <;> simp
  | cons i rest ih =>
    intro st moved failedc errs moved2 failed2 errs2 st2 h
    rw [batchLoop] at h
    by_cases hc : wouldCreateCircularDependencyA st.adapter (walkFuel st) i pid2 = true
    · rw [if_pos hc] at h
      obtain ⟨h1, h2⟩ := ih st moved (failedc + 1) _ moved2 failed2 errs2 st2 h
      constructor
      · simp only [List.length_cons]
        omega
      · simp only [List.length_append, List.length_cons, List.length_nil] at h2
        omega
    · rw [if_neg hc] at h
      cases hs : storeSearchTask st i with
      | nil =>
        rw [hs] at h
        obtain ⟨h1, h2⟩ := ih st moved (failedc + 1) _ moved2 failed2 errs2 st2 h
        constructor
        · simp only [List.length_cons]
          omega
        · simp only [List.length_append, List.length_cons, List.length_nil] at h2
          omega
      | cons u us =>
        rw [hs] at h
        obtain ⟨h1, h2⟩ := ih _ (moved + 1) failedc errs moved2 failed2 errs2 st2 h
        constructor
        · simp only [List.length_cons]
          omega
        · omega

/-- C10: whenever `move_multiple_subtasks` passes its up-front parent and
project validation (i.e. returns aggregate counts at all), the counts
partition the input id list exactly, the error list has one entry per
failure, and the success flag holds iff at least one id moved. -/
theorem batch_counts_partition (s : Store) (ids : List Nat) (pid2 : Nat) (tp : Option Nat)
    (r : BatchResult) (s2 : Store)
    (h : move_multiple_subtasks s ids pid2 tp = (.done r, s2)) :
    r.moved_count + r.failed_count = ids.length ∧
    r.errors.length = r.failed_count ∧
    (r.success = true ↔ 0 < r.moved_count) := by
  unfold move_multiple_subtasks at h
  cases hp : storeSearchTask s pid2 with
  | nil =>
    rw [hp] at h
    simp at h
  | cons np nps =>
    rw [hp] at h
    cases hpe : batchProjErr s tp with
    | some e =>
      rw [hpe] at h
      simp at h
    | none =>
      rw [hpe] at h
      rcases hbl : batchLoop pid2 tp s ids 0 0 [] with ⟨m2, f2, e2, st3⟩
      rw [hbl] at h
      rw [Prod.mk.injEq] at h
      obtain ⟨hdone, hst⟩ := h
      have hr : ({ success := decide (0 < m2), moved_count := m2, failed_count := f2,
                   errors := e2, new_parent_name := np.name } : BatchResult) = r := by
        injection hdone
      subst hr
      obtain ⟨h1, h2⟩ := batchLoop_spec pid2 tp ids s 0 0 [] m2 f2 e2 st3 hbl
      refine ⟨by simpa using h1, by simpa using h2, ?_⟩
      simp

/-- The aggregate result of the batch used by the C10 witness. -/
def batchWitnessResult : BatchResult :=
  { success := true, moved_count := 1, failed_count := 2,
    errors := ["Task 99: not found", "Task 1: would create circular dependency"],
    new_parent_name := "B" }

/-- Witness for C10 on the forest store: moving `[3, 99, 1]` under task 2
yields one success and two failures, partitioning the three ids. -/
theorem batch_counts_partition_witness :
    batchWitnessResult.moved_count + batchWitnessResult.failed_count = [3, 99, 1].length ∧
    batchWitnessResult.errors.length = batchWitnessResult.failed_count ∧
    (batchWitnessResult.success = true ↔ 0 < batchWitnessResult.moved_count) :=
  batch_counts_partition forestStore [3, 99, 1] 2 (some 7) batchWitnessResult
    (writeStore forestStore 3 { parent_id := some 2, project_id := some 7 }) (by decide)

/-- C5: a batch move applies each id independently — here the canonical
shape: first id valid, second id nonexistent, third id cyclic.  The batch
is not aborted, exactly the valid id's write goes through, and the result
reports `moved_count = 1`, `failed_count = 2` with a per-id message naming
each failure's cause. -/
theorem batch_partial_failure (s s1 : Store) (id1 id2 id3 pid2 : Nat) (tp : Option Nat)
    (hpar : storeSearchTask s pid2 ≠ [])
    (hproj : batchProjErr s tp = none)
    (h1c : wouldCreateCircularDependencyA s.adapter (walkFuel s) id1 pid2 = false)
    (h1e : storeSearchTask s id1 ≠ [])
    (hs1 : s1 = writeStore s id1 { parent_id := some pid2, project_id := tp })
    (h2c : wouldCreateCircularDependencyA s1.adapter (walkFuel s1) id2 pid2 = false)
    (h2e : storeSearchTask s1 id2 = [])
    (h3c : wouldCreateCircularDependencyA s1.adapter (walkFuel s1) id3 pid2 = true) :
    ∃ r, move_multiple_subtasks s [id1, id2, id3] pid2 tp = (.done r, s1) ∧
      r.success = true ∧ r.moved_count = 1 ∧ r.failed_count = 2 ∧
      r.errors = [s!"Task {id2}: not found",
                  s!"Task {id3}: would create circular dependency"] := by
  subst hs1
  have hloop : batchLoop pid2 tp s [id1, id2, id3] 0 0 []
      = (1, 2, [s!"Task {id2}: not found",
                s!"Task {id3}: would create circular dependency"],
         writeStore s id1 { parent_id := some pid2, project_id := tp }) := by
    cases hl1 : storeSearchTask s id1 with
    | nil => exact absurd hl1 h1e
    | cons u us =>
      have hstep1 : batchLoop pid2 tp s [id1, id2, id3] 0 0 []
          = batchLoop pid2 tp (writeStore s id1 { parent_id := some pid2, project_id := tp })
              [id2, id3] 1 0 [] := by
        rw [batchLoop, if_neg (by rw [h1c]; simp), hl1]
      have hstep2 : batchLoop pid2 tp
            (writeStore s id1 { parent_id := some pid2, project_id := tp }) [id2, id3] 1 0 []
          = batchLoop pid2 tp (writeStore s id1 { parent_id := some pid2, project_id := tp })
              [id3] 1 1 [s!"Task {id2}: not found"] := by
        rw [batchLoop, if_neg (by rw [h2c]; simp), h2e]
        rfl
      have hstep3 : batchLoop pid2 tp
            (writeStore s id1 { parent_id := some pid2, project_id := tp }) [id3] 1 1
            [s!"Task {id2}: not found"]
          = (1, 2, [s!"Task {id2}: not found",
                    s!"Task {id3}: would create circular dependency"],
             writeStore s id1 { parent_id := some pid2, project_id := tp }) := by
        rw [batchLoop, if_pos h3c, batchLoop]
        rfl
      rw [hstep1, hstep2, hstep3]
  cases hp : storeSearchTask s pid2 with
  | nil => exact absurd hp hpar
  | cons np nps =>
    refine ⟨{ success := true, moved_count := 1, failed_count := 2,
              errors := [s!"Task {id2}: not found",
                         s!"Task {id3}: would create circular dependency"],
              new_parent_name := np.name }, ?_, rfl, rfl, rfl, rfl⟩
    unfold move_multiple_subtasks
    rw [hp, hproj, hloop]
    rfl

/-- Witness for C5: in the forest, `[3, 99, 1]` under parent 2 — task 3 is
movable, 99 does not exist, and task 1 is an ancestor of 2. -/
theorem batch_partial_failure_witness :
    ∃ r, move_multiple_subtasks forestStore [3, 99, 1] 2 (some 7)
        = (.done r, writeStore forestStore 3 { parent_id := some 2, project_id := some 7 }) ∧
      r.success = true ∧ r.moved_count = 1 ∧ r.failed_count = 2 ∧
      r.errors = ["Task 99: not found", "Task 1: would create circular dependency"] :=
  batch_partial_failure forestStore
    (writeStore forestStore 3 { parent_id := some 2, project_id := some 7 })
    3 99 1 2 (some 7) (by decide) (by decide) (by decide) (by decide) rfl
    (by decide) (by decide) (by decide)

/-- A task known to the flaky remote. -/
def flakyTask1 : Task := { id := 1, name := "S", parent_id := none, project_id := none }

/-- A second task, whose own parent (task 3) the flaky remote cannot serve. -/
def flakyTask2 : Task := { id := 2, name := "P", parent_id := some 3, project_id := none }

/-- An adapter that resolves tasks 1 and 2 but raises on every other call —
in particular on task 3, which is consulted only inside the descendant walk
of `move_subtask(1, 2)`. -/
def flakyAdapter : Adapter where
  searchTask i :=
    if i == 1 then .ok [flakyTask1]
    else if i == 2 then .ok [flakyTask2]
    else .error "network error"
  searchProject _ := .error "network error"
  writeTask _ _ := .ok true

/-- C4 counterexample: an adapter call fails (raises) during the acyclicity
walk of `move_subtask(1, 2)`, yet the failure is not surfaced and a write
is issued — `_is_descendant` catches the exception and reports "not a
descendant", so the move proceeds. -/
theorem walk_error_swallowed_counterexample :
    flakyAdapter.searchTask 3 = .error "network error" ∧
    (moveSubtaskA flakyAdapter 10 1 2 none).1.success = true ∧
    (moveSubtaskA flakyAdapter 10 1 2 none).2
      = [(1, { parent_id := some 2, project_id := none })] :=
  ⟨rfl, rfl, rfl⟩

/-- C4 (amended): if one of the validation lookups of `move_subtask` — the
subtask, the new parent, or the (truthy) target project — raises, the error
string is surfaced unmodified as the failure result and no write call is
issued; likewise for `promote_task`'s task lookup.  An error raised inside
the descendant walk, by contrast, is caught there and treated as "no
cycle" (see the counterexample). -/
theorem validation_lookup_errors_surface (a : Adapter) (fuel sid pid tid : Nat)
    (tp : Option Nat) (e : String) :
    ((a.searchTask sid = .error e ∨
      ((∃ t ts, a.searchTask sid = .ok (t :: ts)) ∧ a.searchTask pid = .error e) ∨
      ((∃ t ts, a.searchTask sid = .ok (t :: ts)) ∧
       (∃ t ts, a.searchTask pid = .ok (t :: ts)) ∧
       (∃ q, tp = some q ∧ q ≠ 0 ∧ a.searchProject q = .error e))) →
      moveSubtaskA a fuel sid pid tp = (moveErr e, [])) ∧
    (a.searchTask tid = .error e → promoteA a tid = (promoteErr e, [])) := by
  constructor
  · intro h
    unfold moveSubtaskA
    rcases h with h | ⟨⟨t, ts, hok⟩, h⟩ | ⟨⟨t, ts, hok⟩, ⟨t2, ts2, hok2⟩, q, hq, hq0, herr⟩
    · rw [h]
    · rw [hok, h]
    · rw [hok, hok2]
      have hpv : projectValidate a tp = .error (moveErr e) := by
        subst hq
        simp [projectValidate, herr, hq0]
      rw [hpv]
  · intro h
    unfold promoteA
    rw [h]

/-- Witness for the amended C4 on the flaky adapter: looking up task 5
raises, and both operations surface the error with no write. -/
theorem validation_lookup_errors_surface_witness :
    moveSubtaskA flakyAdapter 10 5 2 none = (moveErr "network error", []) ∧
    promoteA flakyAdapter 5 = (promoteErr "network error", []) := by
  have h := validation_lookup_errors_surface flakyAdapter 10 5 2 5 none "network error"
  exact ⟨h.1 (Or.inl rfl), h.2 rfl⟩

/-- A project-rooted web tree whose task children carry the stages
`Done`, `Done`, `Waiting`. -/
def projectWebTree : WebNode :=
  .node "project" "" 0
    [.node "task" "Done" 1 [], .node "task" "Done" 0 [], .node "task" "Waiting" 2 []]

/-- C8 (code bug): `collect_filter_data` recurses into children only inside
its `type == 'task'` guard, so on a project-rooted hierarchy it collects
nothing: the emitted `filter_data` is empty even though the tree's task
nodes carry stages `Done`/`Waiting`, where the spec's "distinct stage
names present anywhere in the tree", deduplicated and sorted, is
`[Done, Waiting]`. -/
theorem project_filter_data_empty :
    filterData projectWebTree = ([], []) ∧
    treeStagesAnywhere projectWebTree = ["Done", "Done", "Waiting"] ∧
    sortedStages (treeStagesAnywhere projectWebTree) = ["Done", "Waiting"] :=
  ⟨rfl, rfl, rfl⟩

/-- C1: starting from a well-formed remote store whose parent relation
(restricted to the modelled tasks) is a forest, any sequence of sequential
`move_subtask` calls — the successful ones write, the failed ones do not —
leaves the parent relation a forest: following `parent_id` from any task at
most total-task-count steps reaches a task with no parent. -/
theorem move_sequences_preserve_forest (s : Store) (ms : List (Nat × Nat × Option Nat))
    (hwf : WellFormed s) (hac : acyclicB s = true) :
    acyclicB (applyMoves s ms) = true := by
  induction ms generalizing s with
  | nil => exact hac
  | cons m rest ih =>
    exact ih (moveStep s m) (moveStep_preserves s m hwf hac).1 (moveStep_preserves s m hwf hac).2

/-- Witness for C1: two successful moves on the concrete forest (reparenting
task 3 under task 1, then task 2 under task 3) keep it a forest. -/
theorem move_sequences_preserve_forest_witness :
    WellFormed forestStore ∧ acyclicB forestStore = true ∧
    acyclicB (applyMoves forestStore [(3, 1, none), (2, 3, some 7)]) = true :=
  ⟨by decide, by decide,
    move_sequences_preserve_forest forestStore [(3, 1, none), (2, 3, some 7)]
      (by decide) (by decide)⟩

end EdwhOdoo
